import Mathlib

/-!
Verification of the Roc playground WASM bridge (`src/wasm/roc-wasm.ts` and the
historical bridge variants kept in the repository).

The embedding models the host-side bridge faithfully at the granularity the
code manipulates it:

* the module-level mutable globals (`wasmModule`, `wasmMemory`, `messageQueue`,
  `messageInProgress`, `wasmIsDead`) become explicit state records;
* the foreign WASM module is an oracle (`ModuleBehavior`) fixing the result of
  each exported call (`allocateMessageBuffer`, `allocateResponseBuffer`,
  `processMessage`, ...), including the possibility of a hard runtime trap
  (`WebAssembly.RuntimeError`);
* every call into the module is recorded in an event trace so that allocation /
  release discipline and "no further invocation" properties are statements
  about the trace;
* `JSON.parse` of the response bytes is embedded by its outcome: a byte region
  is classified as invalid JSON or as the parsed response object.  The parsed
  object keeps `status` optional, because the TypeScript cast
  `JSON.parse(s) as WasmResponse` performs no runtime check;
* the async message queue (`sendMessageQueued` / `processMessageQueue`) becomes
  a small-step transition system whose suspension points are the `await`s of
  the drain loop.
-/

/-- A request message, as built by the interface functions in
`roc-wasm.ts` (`type` plus the optional fields actually used). -/
structure WasmMessage where
  type : String
  source : Option String := none
  identifier : Option String := none
  line : Option Nat := none
  ch : Option Nat := none
deriving DecidableEq, Repr

/-- The parsed response object.  In the TypeScript source the result of
`JSON.parse(responseStr) as WasmResponse` is returned without any runtime
validation, so every field — including `status` — may be absent at runtime. -/
structure WasmResponseObj where
  status : Option String := none
  message : Option String := none
  data : Option String := none
deriving DecidableEq, Repr

/-- Classification of the response byte region handed to `JSON.parse`:
either the bytes are not valid JSON (`JSON.parse` throws a `SyntaxError`)
or they parse to a response object. -/
inductive ResponseBody where
  | invalidJson
  | validJson (obj : WasmResponseObj)
deriving DecidableEq, Repr

/-- Outcome of calling the module entry point `processMessage`:
it either returns a numeric status code or raises a hard
`WebAssembly.RuntimeError` trap. -/
inductive InvokeOutcome where
  | returns (code : Nat)
  | trap
deriving DecidableEq, Repr

/-- Oracle fixing the behaviour of the foreign module's exports for one call
(variant A, the `processMessage` convention of `src/wasm/roc-wasm.ts`).
A zero result from an allocator models a failed allocation (the JS code
tests the returned pointer for truthiness). `responseLen` is the
little-endian `u32` the module wrote at the start of the response buffer,
and `responseBody` classifies the bytes following it. -/
structure ModuleBehavior where
  allocMessageResult : Nat
  allocResponseResult : Nat
  invokeOutcome : InvokeOutcome
  responseLen : Nat
  responseBody : ResponseBody
  hasGetDebugLogBuffer : Bool := false
  hasClearDebugLog : Bool := false
deriving DecidableEq, Repr

/-- One call into the foreign module, as recorded in the event trace. -/
inductive WasmCall where
  | allocateMessageBuffer
  | allocateResponseBuffer
  | processMessage
  | processAndRespond
  | freeMessageBuffer
  | freeResponseBuffer
  | freeWasmString
  | getDebugLogBuffer
  | clearDebugLog
deriving DecidableEq, Repr

/-- The errors thrown by `sendMessageToWasm`, one constructor per `throw`
site (plus the rethrown `WebAssembly.RuntimeError`). -/
inductive BridgeError where
  | moduleCrashed
  | moduleUnavailable
  | allocMessageFailed
  | allocResponseFailed
  | invocationError (code : Nat) (reason : String)
  | invalidResponseLength (len : Nat)
  | nullResponsePointer
  | missingTerminator
  | decodeError
  | runtimeTrap
deriving DecidableEq, Repr

/-- The bridge-level globals read by `sendMessageToWasm`:
whether `wasmModule` and `wasmMemory` are non-null, and the `wasmIsDead`
liveness flag. -/
structure BridgeState where
  hasModule : Bool
  hasMemory : Bool
  wasmIsDead : Bool
deriving DecidableEq, Repr

instance {ε α : Type} [DecidableEq ε] [DecidableEq α] :
    DecidableEq (Except ε α) := fun x y =>
  match x, y with
  | .ok a, .ok b =>
    if h : a = b then .isTrue (by rw [h])
    else .isFalse (fun hc => h (by injection hc))
  | .ok _, .error _ => .isFalse (fun hc => Except.noConfusion hc)
  | .error _, .ok _ => .isFalse (fun hc => Except.noConfusion hc)
  | .error a, .error b =>
    if h : a = b then .isTrue (by rw [h])
    else .isFalse (fun hc => h (by injection hc))

/-- Result of one `sendMessageToWasm` call: the settled value of its promise,
the updated globals, and the trace of calls made into the module. -/
structure SendResult where
  result : Except BridgeError WasmResponseObj
  state : BridgeState
  calls : List WasmCall
deriving DecidableEq, Repr

/-- The constant `responseBufferSize = 256 * 1024` from `sendMessageToWasm`. -/
def responseBufferSize : Nat := 256 * 1024

/-- The `errorMessages` array used to name a non-zero `processMessage`
status code. -/
def errorMessages : List String :=
  ["success", "invalid_json", "missing_message_type", "unknown_message_type",
   "invalid_state_for_message", "response_buffer_too_small", "internal_error"]

/-- Events of the success-path debug-log block: the log is read only when the
`getDebugLogBuffer` export exists. -/
def debugReadCalls (b : ModuleBehavior) : List WasmCall :=
  if b.hasGetDebugLogBuffer then [.getDebugLogBuffer] else []

/-- Events of clearing the debug log: only when the `clearDebugLog` export
exists. -/
def debugClearCalls (b : ModuleBehavior) : List WasmCall :=
  if b.hasClearDebugLog then [.clearDebugLog] else []

/-- Body of the `try` block of `sendMessageToWasm` (variant A), together with
the information the `finally` block needs: whether `messagePtr` and
`responsePtr` are non-null when the `finally` block runs.  Note that a failed
allocation leaves the pointer variable holding `0`, and `0 !== null` in
JavaScript, so the corresponding free call still runs. -/
structure TryOutcome where
  result : Except BridgeError WasmResponseObj
  deadAfter : Bool
  calls : List WasmCall
  messagePtrSet : Bool
  responsePtrSet : Bool

/-- The `try` block of `sendMessageToWasm` (variant A), mirroring
`src/wasm/roc-wasm.ts` line by line. -/
def sendTryBlock (st : BridgeState) (b : ModuleBehavior) : TryOutcome :=
  -- messagePtr = wasmModule.allocateMessageBuffer(messageBytes.length)
  if b.allocMessageResult = 0 then
    -- if (!messagePtr) throw — messagePtr is 0, not null
    ⟨.error .allocMessageFailed, st.wasmIsDead, [.allocateMessageBuffer], true, false⟩
  else if b.allocResponseResult = 0 then
    -- if (!responsePtr) throw — responsePtr is 0, not null
    ⟨.error .allocResponseFailed, st.wasmIsDead,
      [.allocateMessageBuffer, .allocateResponseBuffer], true, true⟩
  else
    match b.invokeOutcome with
    | .trap =>
      -- WebAssembly.RuntimeError: catch block sets wasmIsDead, reads the
      -- debug log, and rethrows
      ⟨.error .runtimeTrap, true,
        [.allocateMessageBuffer, .allocateResponseBuffer, .processMessage]
          ++ debugReadCalls b, true, true⟩
    | .returns code =>
      if code ≠ 0 then
        -- if (resultCode !== 0) throw with the enumerated reason
        ⟨.error (.invocationError code (errorMessages.getD code "Unknown error")),
          st.wasmIsDead,
          [.allocateMessageBuffer, .allocateResponseBuffer, .processMessage],
          true, true⟩
      else if b.responseLen = 0 ∨ b.responseLen > responseBufferSize - 4 then
        -- if (responseLen === 0 || responseLen > responseBufferSize - 4) throw
        ⟨.error (.invalidResponseLength b.responseLen), st.wasmIsDead,
          [.allocateMessageBuffer, .allocateResponseBuffer, .processMessage],
          true, true⟩
      else
        match b.responseBody with
        | .invalidJson =>
          -- JSON.parse throws a SyntaxError (not a RuntimeError)
          ⟨.error .decodeError, st.wasmIsDead,
            [.allocateMessageBuffer, .allocateResponseBuffer, .processMessage],
            true, true⟩
        | .validJson obj =>
          -- debug log is read and cleared, then the parsed object is returned
          ⟨.ok obj, st.wasmIsDead,
            [.allocateMessageBuffer, .allocateResponseBuffer, .processMessage]
              ++ debugReadCalls b ++ debugClearCalls b, true, true⟩

/-- The `finally` block: `if (messagePtr !== null) freeMessageBuffer();
if (responsePtr !== null) freeResponseBuffer();`. -/
def finallyCalls (messagePtrSet responsePtrSet : Bool) : List WasmCall :=
  (if messagePtrSet then [.freeMessageBuffer] else [])
    ++ (if responsePtrSet then [.freeResponseBuffer] else [])

/-- The function `sendMessageToWasm` from `src/wasm/roc-wasm.ts` (variant A, the
`processMessage` convention).  The dead-flag and availability checks run
before anything touches the module; afterwards the `try` body runs and the
`finally` block appends its frees. -/
def sendMessageToWasm (st : BridgeState) (b : ModuleBehavior)
    (_msg : WasmMessage) : SendResult :=
  if st.wasmIsDead then
    ⟨.error .moduleCrashed, st, []⟩
  else if !st.hasModule || !st.hasMemory then
    ⟨.error .moduleUnavailable, st, []⟩
  else
    let t := sendTryBlock st b
    ⟨t.result, { st with wasmIsDead := t.deadAfter },
      t.calls ++ finallyCalls t.messagePtrSet t.responsePtrSet⟩

/-- Sequentially processing a list of queued messages, threading the bridge
state, as the drain loop of `processMessageQueue` does. -/
def drainQueue (st : BridgeState) (b : ModuleBehavior) :
    List WasmMessage →
      List (Except BridgeError WasmResponseObj) × BridgeState × List WasmCall
  | [] => ([], st, [])
  | m :: ms =>
    let r := sendMessageToWasm st b m
    let rest := drainQueue r.state b ms
    (r.result :: rest.1, rest.2.1, r.calls ++ rest.2.2)

/-!
Section: the Sequencer, `sendMessageQueued` / `processMessageQueue`.

`sendMessageQueued` pushes `{message, resolve, reject}` onto `messageQueue`
and calls `processMessageQueue`.  `processMessageQueue` returns at once when
`messageInProgress` is set or the queue is empty; otherwise it sets the flag
and drains the queue (`shift`, `await sendMessageToWasm`, settle) until it is
empty, then clears the flag.

The only suspension point of the drain loop is the `await`, so a loop
activation is, at any instant, either between iterations (`ready`) or parked
on the `await` of some dequeued message (`inCall id`).  The transition system
below makes every interleaving of callers with those suspension points a
separate action — a superset of the interleavings the JavaScript event loop
can produce, so invariants proved over all action sequences hold of the real
program.  `submitted` and `trace` are history variables recording the order
of submissions and of promise settlements (`resolve` or `reject`).
-/

/-- Program counter of one activation of the drain loop. -/
inductive LoopPC where
  | ready
  | inCall (id : Nat)
deriving DecidableEq, Repr

/-- State of the sequencer: the queue and in-progress flag from the source,
the set of live drain-loop activations, and history variables. -/
structure SeqState where
  queue : List Nat
  inProgress : Bool
  loops : List LoopPC
  trace : List Nat
  submitted : List Nat
deriving DecidableEq, Repr

/-- The initial sequencer state (module load time). -/
def initSeq : SeqState := ⟨[], false, [], [], []⟩

/-- Ids currently parked on the `await` of the drain loop. -/
def inCallIds (s : SeqState) : List Nat :=
  s.loops.filterMap fun pc =>
    match pc with
    | .ready => none
    | .inCall i => some i

/-- Actions of the sequencer transition system.  `submit` is
`sendMessageQueued` (push + `processMessageQueue` entry check); `beginCall k`
is activation `k` shifting the queue head and starting its `await`;
`settleCall k` is that `await` returning and the promise being settled;
`exitLoop k` is activation `k` seeing an empty queue, clearing
`messageInProgress` and returning; `reset` is `resetWasm`'s effect on the
queue and flag (the loop activations themselves are untouched by `resetWasm`:
a pending `await` cannot be cancelled). -/
inductive SeqAction where
  | submit (id : Nat)
  | beginCall (k : Nat)
  | settleCall (k : Nat)
  | exitLoop (k : Nat)
  | reset
deriving DecidableEq, Repr

/-- One step of the sequencer.  Actions whose guard does not hold leave the
state unchanged (they are not enabled). -/
def seqStep (s : SeqState) : SeqAction → SeqState
  | .submit i =>
    -- messageQueue.push(...); processMessageQueue()
    let s' : SeqState :=
      { s with queue := s.queue ++ [i], submitted := s.submitted ++ [i] }
    -- if (messageInProgress || messageQueue.length === 0) return
    if s'.inProgress ∨ s'.queue = [] then s'
    else { s' with inProgress := true, loops := s'.loops ++ [.ready] }
  | .beginCall k =>
    match s.loops[k]?, s.queue with
    | some .ready, i :: rest =>
      -- const queuedMessage = messageQueue.shift(); await sendMessageToWasm
      { s with queue := rest, loops := s.loops.set k (.inCall i) }
    | _, _ => s
  | .settleCall k =>
    match s.loops[k]? with
    | some (.inCall i) =>
      -- resolve(result) / reject(error), then back to the while condition
      { s with trace := s.trace ++ [i], loops := s.loops.set k .ready }
    | _ => s
  | .exitLoop k =>
    match s.loops[k]?, s.queue with
    | some .ready, [] =>
      -- while condition false: messageInProgress = false; return
      { s with loops := s.loops.eraseIdx k, inProgress := false }
    | _, _ => s
  | .reset =>
    -- resetWasm: messageQueue = []; messageInProgress = false
    { s with queue := [], inProgress := false }

/-- Running a sequence of actions from a state. -/
def seqRun (s : SeqState) (acts : List SeqAction) : SeqState :=
  acts.foldl seqStep s

/-!
Section: variant B, the `processAndRespond` convention.

An earlier bridge version kept in the repository uses
`processAndRespond(msgPtr, msgLen) -> respPtr`: the module returns a pointer
to a module-owned, null-terminated response string (`0` on internal error),
which the host scans for its terminator, decodes, and frees with
`freeWasmString`.
-/

/-- Outcome of calling `processAndRespond`: a returned pointer or a trap. -/
inductive InvokeOutcomeB where
  | returns (ptr : Nat)
  | trap
deriving DecidableEq, Repr

/-- Oracle for one variant-B call.  `memory` is the module's linear memory as
a byte list (only the region scanned for the response matters), and `parse`
classifies the scanned bytes the way `JSON.parse` would. -/
structure ModuleBehaviorB where
  allocMessageResult : Nat
  invokeOutcome : InvokeOutcomeB
  memory : List Nat
  hasGetDebugLogBuffer : Bool := false
  hasClearDebugLog : Bool := false
deriving DecidableEq, Repr

/-- Debug-log read events for variant B. -/
def debugReadCallsB (b : ModuleBehaviorB) : List WasmCall :=
  if b.hasGetDebugLogBuffer then [.getDebugLogBuffer] else []

/-- Debug-log clear events for variant B. -/
def debugClearCallsB (b : ModuleBehaviorB) : List WasmCall :=
  if b.hasClearDebugLog then [.clearDebugLog] else []

/-- The bounded scan of the variant-B response: the `for` loop
`for (let i = responsePtr; i < byteLength; i++) if (mem[i] === 0) { len = i - ptr; break }`
leaves `responseLength` at `0` when no terminator is found (or when the byte
at `ptr` itself is `0`).  `scanResponseLength` returns that length. -/
def scanResponseGo (mem : List Nat) (ptr : Nat) : Nat → Nat → Nat
  | _, 0 => 0
  | i, fuel + 1 =>
    if mem.getD i 1 = 0 then i - ptr else scanResponseGo mem ptr (i + 1) fuel

/-- Length computed by the bounded scan, walking `i = ptr, ptr+1, ...` while
`i < mem.length`, with explicit fuel `mem.length - i` mirroring the bounded
`for` loop. -/
def scanResponseLength (mem : List Nat) (ptr : Nat) : Nat :=
  scanResponseGo mem ptr ptr (mem.length - ptr)

/-- The try block of variant B's `sendMessageToWasm`, with the null-ness of
`messagePtr` / `responsePtr` at `finally` time.  `parse` classifies the
scanned byte region. -/
def sendTryBlockB (st : BridgeState) (b : ModuleBehaviorB)
    (parse : List Nat → ResponseBody) : TryOutcome :=
  if b.allocMessageResult = 0 then
    -- if (!messagePtr || messagePtr === 0) throw; messagePtr is 0, not null
    ⟨.error .allocMessageFailed, st.wasmIsDead, [.allocateMessageBuffer], true, false⟩
  else
    match b.invokeOutcome with
    | .trap =>
      -- trap inside processAndRespond, before the immediate free
      ⟨.error .runtimeTrap, true,
        [.allocateMessageBuffer, .processAndRespond] ++ debugReadCallsB b,
        true, false⟩
    | .returns ptr =>
      -- freeMessageBuffer(); messagePtr = null  (runs right after the call)
      if ptr = 0 then
        -- if (!responsePtr || responsePtr === 0) throw; responsePtr is 0
        ⟨.error .nullResponsePointer, st.wasmIsDead,
          [.allocateMessageBuffer, .processAndRespond, .freeMessageBuffer],
          false, true⟩
      else
        let len := scanResponseLength b.memory ptr
        if len = 0 then
          -- if (responseLength === 0) throw
          ⟨.error .missingTerminator, st.wasmIsDead,
            [.allocateMessageBuffer, .processAndRespond, .freeMessageBuffer],
            false, true⟩
        else
          match parse ((b.memory.drop ptr).take len) with
          | .invalidJson =>
            -- JSON.parse throws before freeWasmString runs
            ⟨.error .decodeError, st.wasmIsDead,
              [.allocateMessageBuffer, .processAndRespond, .freeMessageBuffer],
              false, true⟩
          | .validJson obj =>
            -- freeWasmString(responsePtr); responsePtr = null; debug log
            ⟨.ok obj, st.wasmIsDead,
              [.allocateMessageBuffer, .processAndRespond, .freeMessageBuffer,
                .freeWasmString] ++ debugReadCallsB b ++ debugClearCallsB b,
              false, false⟩

/-- The `finally` block of variant B: frees `messagePtr` (shared free call)
and `responsePtr` (via `freeWasmString`) when still non-null. -/
def finallyCallsB (messagePtrSet responsePtrSet : Bool) : List WasmCall :=
  (if messagePtrSet then [.freeMessageBuffer] else [])
    ++ (if responsePtrSet then [.freeWasmString] else [])

/-- Variant B `sendMessageToWasm`: dead-flag and availability checks, then the
try body, then the `finally` frees. -/
def sendMessageToWasmB (st : BridgeState) (b : ModuleBehaviorB)
    (parse : List Nat → ResponseBody) (_msg : WasmMessage) : SendResult :=
  if st.wasmIsDead then
    ⟨.error .moduleCrashed, st, []⟩
  else if !st.hasModule || !st.hasMemory then
    ⟨.error .moduleUnavailable, st, []⟩
  else
    let t := sendTryBlockB st b parse
    ⟨t.result, { st with wasmIsDead := t.deadAfter },
      t.calls ++ finallyCallsB t.messagePtrSet t.responsePtrSet⟩

/-!
Section: interface message builders for hover and type-info queries.

`getHoverInfo` (current `src/wasm/roc-wasm.ts`) sends `ch: ch + 1` — the WASM
module expects a 1-based column while the editor supplies a 0-based one.
`getTypeInfo` (the older bridge version kept in the repository) sends the
`ch` it was given, unchanged.
-/

/-- The message built by `getHoverInfo(identifier, line, ch)`. -/
def getHoverInfoMessage (identifier : String) (line ch : Nat) : WasmMessage :=
  { type := "GET_HOVER_INFO", identifier := some identifier,
    line := some line, ch := some (ch + 1) }

/-- The message built by `getTypeInfo(identifier, line, ch)` in the older
bridge version. -/
def getTypeInfoMessage (identifier : String) (line ch : Nat) : WasmMessage :=
  { type := "GET_TYPE_INFO", identifier := some identifier,
    line := some line, ch := some ch }

/-!
Section: `parseDiagnostics` from src/index.ts.

The consumer walks `result.diagnostics.list` and keeps a diagnostic only when
`diag.region` exists and each of its four position fields satisfies
`typeof x === "number"`; kept diagnostics are rebuilt field by field.
-/

/-- A region as found in raw JSON: each field is `some` exactly when it is
present and is a number. -/
structure RawRegion where
  start_line : Option Int
  start_column : Option Int
  end_line : Option Int
  end_column : Option Int
deriving DecidableEq, Repr

/-- A raw diagnostic from `result.diagnostics.list`; `region := none` models
a missing (or falsy) `region` property. -/
structure RawDiagnostic where
  severity : String
  message : String
  region : Option RawRegion
deriving DecidableEq, Repr

/-- A validated region (the `Region` interface). -/
structure Region where
  start_line : Int
  start_column : Int
  end_line : Int
  end_column : Int
deriving DecidableEq, Repr

/-- A validated diagnostic (the `Diagnostic` interface; the `severity` cast
`diag.severity as ...` has no runtime effect, so severity stays a string). -/
structure Diagnostic where
  severity : String
  message : String
  region : Region
deriving DecidableEq, Repr

/-- The body of the `for` loop of `parseDiagnostics`: push the rebuilt
diagnostic when the region check passes, otherwise skip. -/
def parseDiagStep (acc : List Diagnostic) (diag : RawDiagnostic) :
    List Diagnostic :=
  match diag.region with
  | some r =>
    match r.start_line, r.start_column, r.end_line, r.end_column with
    | some sl, some sc, some el, some ec =>
      acc ++ [{ severity := diag.severity, message := diag.message,
                region := { start_line := sl, start_column := sc,
                            end_line := el, end_column := ec } }]
    | _, _, _, _ => acc
  | none => acc

/-- The function `parseDiagnostics` from `src/index.ts`: the `for (const diag of list)`
loop over the structured diagnostics list, pushing validated entries. -/
def parseDiagnostics (list : List RawDiagnostic) : List Diagnostic :=
  list.foldl parseDiagStep []

/-- Specification-side reading of the same sentence: keep exactly the
diagnostics whose region carries all four numeric fields, preserving
severity, message and region field-for-field. -/
def parseDiagnosticsSpec (list : List RawDiagnostic) : List Diagnostic :=
  list.filterMap fun diag =>
    match diag.region with
    | some r =>
      match r.start_line, r.start_column, r.end_line, r.end_column with
      | some sl, some sc, some el, some ec =>
        some { severity := diag.severity, message := diag.message,
               region := { start_line := sl, start_column := sc,
                           end_line := el, end_column := ec } }
      | _, _, _, _ => none
    | none => none

/-!
Section: `readNullTerminatedString` and `resetWasm`.

`readNullTerminatedString(ptr)` returns `""` when `wasmMemory` is null or
`ptr` is falsy; otherwise it scans `memory[end]` upward from `ptr` until it
reads `0`.  Reading a `Uint8Array` out of bounds yields `undefined`, and
`undefined !== 0`, so when no zero byte exists at or after `ptr` the loop
never stops.  The scan is embedded two ways: `ScanTerminates` is the
accessibility predicate of the `while` loop (it holds exactly when the loop
halts), and `findZero` is the bounded search that computes the stopping index
when one exists.
-/

/-- Termination of the `while (memory[end] !== 0) end++` loop started at
index `e`: the loop halts exactly when this inductive predicate holds.
`mem[e]? ≠ some 0` covers both a non-zero byte and the out-of-bounds
`undefined` read. -/
inductive ScanTerminates (mem : List Nat) : Nat → Prop
  | stop (e : Nat) : mem[e]? = some 0 → ScanTerminates mem e
  | step (e : Nat) : mem[e]? ≠ some 0 → ScanTerminates mem (e + 1) →
      ScanTerminates mem e

/-- Least index `z ≥ e` with `mem[z] = 0`, if any (the index where the scan
loop stops). -/
def findZero (mem : List Nat) (e : Nat) : Option Nat :=
  if h : e < mem.length then
    if mem[e] = 0 then some e else findZero mem (e + 1)
  else none
termination_by mem.length - e
decreasing_by omega

/-- The function `readNullTerminatedString`, with `none` standing for the memory byte list
when `wasmMemory` is null.  The result is the decoded byte region, or `none`
when the scan never halts (the JavaScript function loops forever). -/
def readNullTerminatedString (mem : Option (List Nat)) (ptr : Nat) :
    Option (List Nat) :=
  match mem with
  | none => some []
  | some m =>
    if ptr = 0 then some []
    else
      match findZero m ptr with
      | some e => some ((m.drop ptr).take (e - ptr))
      | none => none

/-- The full set of module-level globals assigned by `resetWasm`.  The queue
is represented by its submission ids, matching the sequencer model. -/
structure WasmGlobals where
  wasmModule : Bool
  wasmMemory : Bool
  messageQueue : List Nat
  messageInProgress : Bool
  wasmIsDead : Bool
deriving DecidableEq, Repr

/-- The function `resetWasm` from `src/wasm/roc-wasm.ts`: every global is reassigned its
initial value. -/
def resetWasm (_g : WasmGlobals) : WasmGlobals :=
  { wasmModule := false
    wasmMemory := false
    messageQueue := []
    messageInProgress := false
    wasmIsDead := false }

/-- The sequencer invariant: at most one drain-loop activation exists,
`messageInProgress` is set exactly while one does, and the submission order
is the settled trace, then the ids parked on the `await`, then the queue. -/
def SeqInv (s : SeqState) : Prop :=
  s.loops.length ≤ 1 ∧ (s.inProgress = true ↔ s.loops ≠ []) ∧
  s.submitted = s.trace ++ inCallIds s ++ s.queue

/-!
Section: theorems.
-/

theorem seqStep_submit_inProgress (s : SeqState) (i : Nat)
    (hp : s.inProgress = true) :
    (seqStep s (.submit i)).loops = s.loops ∧
    (seqStep s (.submit i)).inProgress = s.inProgress ∧
    (seqStep s (.submit i)).queue = s.queue ++ [i] := by
  simp [seqStep, hp]

theorem seqStep_inv (s : SeqState) (a : SeqAction) (ha : a ≠ SeqAction.reset)
    (h : SeqInv s) : SeqInv (seqStep s a) := by
  obtain ⟨q, ip, lp, tr, sub⟩ := s
  obtain ⟨hlen, hflag, horder⟩ := h
  dsimp only at hlen hflag
  dsimp only [inCallIds] at horder
  cases a with
  | submit i =>
    cases ip with
    | true =>
      refine ⟨?_, ?_, ?_⟩ <;>
        simp [seqStep, inCallIds, horder, hlen] <;>
        simpa using hflag
    | false =>
      have hnil : lp = [] := by
        by_contra hne
        exact absurd (hflag.mpr hne) Bool.false_ne_true
      subst hnil
      simp only [List.filterMap_nil, List.nil_append] at horder
      refine ⟨?_, ?_, ?_⟩ <;> simp [seqStep, inCallIds, horder]
  | beginCall k =>
    cases lp with
    | nil =>
      refine ⟨?_, ?_, ?_⟩ <;> simp [seqStep, inCallIds, horder, hlen, hflag]
    | cons p t =>
      cases t with
      | cons p2 t2 => simp at hlen
      | nil =>
        cases k with
        | succ k2 =>
          refine ⟨?_, ?_, ?_⟩ <;>
            simp [seqStep, inCallIds, horder, hlen] <;> exact hflag.mpr (by simp)
        | zero =>
          cases p with
          | inCall j =>
            refine ⟨?_, ?_, ?_⟩ <;>
              simp [seqStep, inCallIds, horder, hlen] <;> exact hflag.mpr (by simp)
          | ready =>
            cases q with
            | nil =>
              refine ⟨?_, ?_, ?_⟩ <;>
                simp [seqStep, inCallIds, horder, hlen] <;> exact hflag.mpr (by simp)
            | cons i rest =>
              refine ⟨?_, ?_, ?_⟩ <;>
                simp [seqStep, inCallIds, List.filterMap, horder, hlen] <;>
                simpa using hflag
  | settleCall k =>
    cases lp with
    | nil =>
      refine ⟨?_, ?_, ?_⟩ <;> simp [seqStep, inCallIds, horder, hlen, hflag]
    | cons p t =>
      cases t with
      | cons p2 t2 => simp at hlen
      | nil =>
        cases k with
        | succ k2 =>
          refine ⟨?_, ?_, ?_⟩ <;>
            simp [seqStep, inCallIds, horder, hlen] <;> exact hflag.mpr (by simp)
        | zero =>
          cases p with
          | ready =>
            refine ⟨?_, ?_, ?_⟩ <;>
              simp [seqStep, inCallIds, horder, hlen] <;> exact hflag.mpr (by simp)
          | inCall j =>
            refine ⟨?_, ?_, ?_⟩ <;>
              simp [seqStep, inCallIds, List.filterMap, horder, hlen] <;>
              simpa using hflag
  | exitLoop k =>
    cases lp with
    | nil =>
      refine ⟨?_, ?_, ?_⟩ <;> simp [seqStep, inCallIds, horder, hlen, hflag]
    | cons p t =>
      cases t with
      | cons p2 t2 => simp at hlen
      | nil =>
        cases k with
        | succ k2 =>
          refine ⟨?_, ?_, ?_⟩ <;>
            simp [seqStep, inCallIds, horder, hlen] <;> exact hflag.mpr (by simp)
        | zero =>
          cases p with
          | inCall j =>
            refine ⟨?_, ?_, ?_⟩ <;>
              simp [seqStep, inCallIds, horder, hlen] <;> exact hflag.mpr (by simp)
          | ready =>
            cases q with
            | cons i rest =>
              refine ⟨?_, ?_, ?_⟩ <;>
                simp [seqStep, inCallIds, horder, hlen] <;> exact hflag.mpr (by simp)
            | nil =>
              refine ⟨?_, ?_, ?_⟩ <;>
                simp [seqStep, inCallIds, List.filterMap, horder, hlen]
  | reset => exact absurd rfl ha

theorem seqRun_inv (acts : List SeqAction)
    (hnr : ∀ a ∈ acts, a ≠ SeqAction.reset) (s : SeqState) (hs : SeqInv s) :
    SeqInv (seqRun s acts) := by
  induction acts generalizing s with
  | nil => exact hs
  | cons a rest ih =>
    exact ih (fun b hb => hnr b (List.mem_cons_of_mem a hb))
      (seqStep s a) (seqStep_inv s a (hnr a (List.mem_cons_self a rest)) hs)

theorem seqRun_inv_init (acts : List SeqAction)
    (hnr : ∀ a ∈ acts, a ≠ SeqAction.reset) : SeqInv (seqRun initSeq acts) :=
  seqRun_inv acts hnr initSeq (by refine ⟨?_, ?_, ?_⟩ <;> simp [initSeq, inCallIds])

theorem seqStep_discarded (s : SeqState) (a : SeqAction) (i : Nat)
    (ha : a ≠ SeqAction.submit i)
    (h1 : i ∉ s.queue) (h2 : i ∉ s.trace) (h3 : LoopPC.inCall i ∉ s.loops) :
    i ∉ (seqStep s a).queue ∧ i ∉ (seqStep s a).trace ∧
      LoopPC.inCall i ∉ (seqStep s a).loops := by
  obtain ⟨q, ip, lp, tr, sub⟩ := s
  dsimp only at h1 h2 h3
  cases a with
  | submit j =>
    have hij : ¬(i = j) := fun hij => ha (by rw [hij])
    by_cases hp : ip = true
    · subst hp
      refine ⟨?_, ?_, ?_⟩ <;> simp [seqStep, h1, h2, h3, hij]
    · have hp' : ip = false := by
        cases ip
        · rfl
        · exact absurd rfl hp
      subst hp'
      refine ⟨?_, ?_, ?_⟩ <;>
        simp [seqStep, h1, h2, h3, hij] <;>
        intro hmem <;> simp at hmem
  | beginCall k =>
    rcases hg : lp[k]? with _ | pc
    · refine ⟨?_, ?_, ?_⟩ <;> simp [seqStep, hg, h1, h2, h3]
    · cases pc with
      | inCall j => refine ⟨?_, ?_, ?_⟩ <;> simp [seqStep, hg, h1, h2, h3]
      | ready =>
        cases hq : q with
        | nil => refine ⟨?_, ?_, ?_⟩ <;> simp [seqStep, hg, h1, h2, h3]
        | cons j rest =>
          subst hq
          have hij : ¬(i = j) := fun hij => h1 (by rw [hij]; exact List.mem_cons_self j rest)
          have hrest : i ∉ rest := fun hmem => h1 (List.mem_cons_of_mem j hmem)
          refine ⟨?_, ?_, ?_⟩ <;> simp only [seqStep, hg]
          · exact hrest
          · exact h2
          · intro hmem
            rcases List.mem_or_eq_of_mem_set hmem with hin | heq
            · exact h3 hin
            · exact hij (by injection heq)
  | settleCall k =>
    rcases hg : lp[k]? with _ | pc
    · refine ⟨?_, ?_, ?_⟩ <;> simp [seqStep, hg, h1, h2, h3]
    · cases pc with
      | ready => refine ⟨?_, ?_, ?_⟩ <;> simp [seqStep, hg, h1, h2, h3]
      | inCall j =>
        have hjin : LoopPC.inCall j ∈ lp := List.getElem?_mem hg
        have hij : ¬(i = j) := fun hij => h3 (by rw [hij]; exact hjin)
        refine ⟨?_, ?_, ?_⟩ <;> simp only [seqStep, hg]
        · exact h1
        · simp [h2, hij]
        · intro hmem
          rcases List.mem_or_eq_of_mem_set hmem with hin | heq
          · exact h3 hin
          · exact LoopPC.noConfusion heq
  | exitLoop k =>
    rcases hg : lp[k]? with _ | pc
    · refine ⟨?_, ?_, ?_⟩ <;> simp [seqStep, hg, h1, h2, h3]
    · cases pc with
      | inCall j => refine ⟨?_, ?_, ?_⟩ <;> simp [seqStep, hg, h1, h2, h3]
      | ready =>
        cases hq : q with
        | cons j rest =>
          subst hq
          refine ⟨?_, ?_, ?_⟩ <;> simp only [seqStep, hg]
          · exact h1
          · exact h2
          · exact h3
        | nil =>
          subst hq
          refine ⟨?_, ?_, ?_⟩ <;> simp only [seqStep, hg]
          · simp
          · exact h2
          · intro hmem
            exact h3 (List.eraseIdx_subset lp k hmem)
  | reset =>
    refine ⟨?_, ?_, ?_⟩ <;> simp [seqStep, h1, h2, h3]

theorem seqRun_discarded (acts : List SeqAction) (i : Nat)
    (hna : ∀ a ∈ acts, a ≠ SeqAction.submit i) (s : SeqState)
    (h1 : i ∉ s.queue) (h2 : i ∉ s.trace) (h3 : LoopPC.inCall i ∉ s.loops) :
    i ∉ (seqRun s acts).queue ∧ i ∉ (seqRun s acts).trace ∧
      LoopPC.inCall i ∉ (seqRun s acts).loops := by
  induction acts generalizing s with
  | nil => exact ⟨h1, h2, h3⟩
  | cons a rest ih =>
    have hstep := seqStep_discarded s a i (hna a (List.mem_cons_self a rest)) h1 h2 h3
    exact ih (fun b hb => hna b (List.mem_cons_of_mem a hb))
      (seqStep s a) hstep.1 hstep.2.1 hstep.2.2

/-- Claim C2: responses are settled in exactly the submission order.  For any
interleaving of submissions with the drain loop (no reset), the submission
order decomposes as settled trace, then the id currently awaited, then the
queue — so the settled trace is always a prefix of the submission order, and
when a message is dequeued for its invoke/decode cycle every earlier
submission has already been settled. -/
theorem sequencer_fifo (acts : List SeqAction)
    (hnr : ∀ a ∈ acts, a ≠ SeqAction.reset) :
    (seqRun initSeq acts).submitted =
        (seqRun initSeq acts).trace ++ inCallIds (seqRun initSeq acts) ++
          (seqRun initSeq acts).queue ∧
    ∃ pending, (seqRun initSeq acts).submitted =
        (seqRun initSeq acts).trace ++ pending := by
  have h := seqRun_inv_init acts hnr
  exact ⟨h.2.2, ⟨_, by rw [h.2.2, List.append_assoc]⟩⟩

theorem sequencer_fifo_witness :
    (seqRun initSeq [SeqAction.submit 3, SeqAction.submit 4,
        SeqAction.beginCall 0, SeqAction.settleCall 0,
        SeqAction.beginCall 0]).submitted =
      (seqRun initSeq [SeqAction.submit 3, SeqAction.submit 4,
          SeqAction.beginCall 0, SeqAction.settleCall 0,
          SeqAction.beginCall 0]).trace ++
        inCallIds (seqRun initSeq [SeqAction.submit 3, SeqAction.submit 4,
          SeqAction.beginCall 0, SeqAction.settleCall 0,
          SeqAction.beginCall 0]) ++
        (seqRun initSeq [SeqAction.submit 3, SeqAction.submit 4,
          SeqAction.beginCall 0, SeqAction.settleCall 0,
          SeqAction.beginCall 0]).queue :=
  (sequencer_fifo [SeqAction.submit 3, SeqAction.submit 4,
    SeqAction.beginCall 0, SeqAction.settleCall 0,
    SeqAction.beginCall 0] (by decide)).1

/-- Claim C3: at most one call is in flight at any time.  In every state
reachable without a reset there is at most one drain-loop activation (hence
at most one id parked on the `await`), and `messageInProgress` is set exactly
while one exists; moreover a `submit` arriving while the flag is set only
appends to the queue, leaving the loop activations untouched. -/
theorem sequencer_single_flight (acts : List SeqAction)
    (hnr : ∀ a ∈ acts, a ≠ SeqAction.reset) :
    ((seqRun initSeq acts).loops.length ≤ 1 ∧
      (inCallIds (seqRun initSeq acts)).length ≤ 1 ∧
      ((seqRun initSeq acts).inProgress = true ↔
        (seqRun initSeq acts).loops ≠ [])) ∧
    (∀ (s : SeqState) (i : Nat), s.inProgress = true →
      (seqStep s (SeqAction.submit i)).loops = s.loops ∧
      (seqStep s (SeqAction.submit i)).queue = s.queue ++ [i]) := by
  constructor
  · have h := seqRun_inv_init acts hnr
    refine ⟨h.1, ?_, h.2.1⟩
    calc (inCallIds (seqRun initSeq acts)).length
        ≤ (seqRun initSeq acts).loops.length := List.length_filterMap_le _ _
      _ ≤ 1 := h.1
  · intro s i hp
    have h := seqStep_submit_inProgress s i hp
    exact ⟨h.1, h.2.2⟩

theorem sequencer_single_flight_witness :
    (seqRun initSeq [SeqAction.submit 1, SeqAction.submit 2,
        SeqAction.beginCall 0]).loops.length ≤ 1 ∧
    (inCallIds (seqRun initSeq [SeqAction.submit 1, SeqAction.submit 2,
        SeqAction.beginCall 0])).length ≤ 1 :=
  ⟨(sequencer_single_flight [SeqAction.submit 1, SeqAction.submit 2,
      SeqAction.beginCall 0] (by decide)).1.1,
   (sequencer_single_flight [SeqAction.submit 1, SeqAction.submit 2,
      SeqAction.beginCall 0] (by decide)).1.2.1⟩

/-- Claim C9: `resetWasm` unconditionally restores every bridge-level global
to its initial value (module handle and memory cleared, queue emptied, both
flags false), and a message pending in the queue at reset time — not yet
settled and not in flight — is never settled afterwards unless resubmitted:
its id never enters the settled trace. -/
theorem resetWasm_restores_initial_state :
    (∀ g : WasmGlobals, resetWasm g =
      { wasmModule := false, wasmMemory := false, messageQueue := [],
        messageInProgress := false, wasmIsDead := false }) ∧
    (∀ (s : SeqState) (i : Nat) (acts : List SeqAction),
      i ∈ s.queue → i ∉ s.trace → LoopPC.inCall i ∉ s.loops →
      (∀ a ∈ acts, a ≠ SeqAction.submit i) →
      i ∉ (seqRun (seqStep s SeqAction.reset) acts).trace) := by
  constructor
  · intro g
    rfl
  · intro s i acts _hq htr hl hna
    have h0 : i ∉ (seqStep s SeqAction.reset).queue ∧
        i ∉ (seqStep s SeqAction.reset).trace ∧
        LoopPC.inCall i ∉ (seqStep s SeqAction.reset).loops := by
      obtain ⟨q, ip, lp, tr, sub⟩ := s
      exact ⟨by simp [seqStep], htr, hl⟩
    exact (seqRun_discarded acts i hna _ h0.1 h0.2.1 h0.2.2).2.1

theorem resetWasm_restores_initial_state_witness :
    resetWasm ⟨true, true, [5, 6], true, true⟩ =
      { wasmModule := false, wasmMemory := false, messageQueue := [],
        messageInProgress := false, wasmIsDead := false } ∧
    5 ∉ (seqRun (seqStep ⟨[5], true, [LoopPC.ready], [], [5]⟩ SeqAction.reset)
      [SeqAction.submit 7, SeqAction.beginCall 0, SeqAction.settleCall 0,
        SeqAction.exitLoop 0]).trace :=
  ⟨resetWasm_restores_initial_state.1 ⟨true, true, [5, 6], true, true⟩,
   resetWasm_restores_initial_state.2 ⟨[5], true, [LoopPC.ready], [], [5]⟩ 5
    [SeqAction.submit 7, SeqAction.beginCall 0, SeqAction.settleCall 0,
      SeqAction.exitLoop 0]
    (by decide) (by decide) (by decide) (by decide)⟩

/-- Claim C1: once the liveness flag is false, every subsequent call fails
immediately with the fatal-bridge error: `sendMessageToWasm` rejects without
touching the module (empty call trace, state unchanged), and draining any
queue of pending messages from a dead state rejects every one of them with
zero calls into the module. -/
theorem dead_flag_fails_fast (st : BridgeState) (b : ModuleBehavior)
    (msgs : List WasmMessage) (hd : st.wasmIsDead = true) :
    (∀ m, sendMessageToWasm st b m =
      ⟨.error .moduleCrashed, st, []⟩) ∧
    (drainQueue st b msgs).1 =
      msgs.map (fun _ => Except.error BridgeError.moduleCrashed) ∧
    (drainQueue st b msgs).2.2 = [] := by
  have hsend : ∀ m, sendMessageToWasm st b m =
      ⟨.error .moduleCrashed, st, []⟩ := by
    intro m
    simp [sendMessageToWasm, hd]
  have haux : ∀ ms, drainQueue st b ms =
      (ms.map (fun _ => Except.error BridgeError.moduleCrashed), st, []) := by
    intro ms
    induction ms with
    | nil => rfl
    | cons m t ih => simp [drainQueue, hsend m, ih]
  exact ⟨hsend, by rw [haux], by rw [haux]⟩

theorem dead_flag_fails_fast_witness :
    sendMessageToWasm ⟨true, true, true⟩
        ⟨1, 1, InvokeOutcome.returns 0, 10, ResponseBody.validJson ⟨none, none, none⟩,
          false, false⟩ ⟨"INIT", none, none, none, none⟩ =
      ⟨.error .moduleCrashed, ⟨true, true, true⟩, []⟩ ∧
    (drainQueue ⟨true, true, true⟩
        ⟨1, 1, InvokeOutcome.returns 0, 10, ResponseBody.validJson ⟨none, none, none⟩,
          false, false⟩
        [⟨"QUERY_TOKENS", none, none, none, none⟩,
          ⟨"QUERY_AST", none, none, none, none⟩]).2.2 = [] :=
  ⟨(dead_flag_fails_fast ⟨true, true, true⟩
      ⟨1, 1, InvokeOutcome.returns 0, 10, ResponseBody.validJson ⟨none, none, none⟩,
        false, false⟩ [] rfl).1 ⟨"INIT", none, none, none, none⟩,
   (dead_flag_fails_fast ⟨true, true, true⟩
      ⟨1, 1, InvokeOutcome.returns 0, 10, ResponseBody.validJson ⟨none, none, none⟩,
        false, false⟩
      [⟨"QUERY_TOKENS", none, none, none, none⟩,
        ⟨"QUERY_AST", none, none, none, none⟩] rfl).2.2⟩

/-- Claim C7, counterexample: a `GET_TYPE_INFO` request built for editor
column 5 carries `ch = 5`, not `5 + 1` — the type-info path does not
increment the column, contradicting the claim that every hover/type query
kind does. -/
theorem get_type_info_column_not_incremented :
    (getTypeInfoMessage "foo" 2 5).ch = some 5 ∧
    ¬((getTypeInfoMessage "foo" 2 5).ch = some (5 + 1)) := by
  constructor
  · rfl
  · intro h
    simp [getTypeInfoMessage] at h

/-- Claim C7 as amended: `getHoverInfo` encodes `ch = c + 1` with the line
unchanged, while `getTypeInfo` (the older bridge version) passes both the
line and the column through unchanged. -/
theorem hover_and_type_info_columns (identifier : String) (line ch : Nat) :
    (getHoverInfoMessage identifier line ch).ch = some (ch + 1) ∧
    (getHoverInfoMessage identifier line ch).line = some line ∧
    (getTypeInfoMessage identifier line ch).ch = some ch ∧
    (getTypeInfoMessage identifier line ch).line = some line :=
  ⟨rfl, rfl, rfl, rfl⟩

theorem parseDiagStep_append (acc : List Diagnostic) (d : RawDiagnostic) :
    parseDiagStep acc d = acc ++ parseDiagStep [] d := by
  obtain ⟨sev, msg, reg⟩ := d
  rcases reg with _ | ⟨sl, sc, el, ec⟩
  · simp [parseDiagStep]
  · rcases sl with _ | sl <;> rcases sc with _ | sc <;>
      rcases el with _ | el <;> rcases ec with _ | ec <;>
      simp [parseDiagStep]

/-- Claim C8: the diagnostics consumer drops every diagnostic whose region is
missing any of the four numeric position fields and keeps every fully-formed
one with severity, message, and region preserved field-for-field: the
for-loop of `parseDiagnostics` computes exactly the filter-and-rebuild
described by the spec. -/
theorem parseDiagnostics_drops_malformed (list : List RawDiagnostic) :
    parseDiagnostics list = parseDiagnosticsSpec list := by
  have haux : ∀ (l : List RawDiagnostic) (acc : List Diagnostic),
      l.foldl parseDiagStep acc = acc ++ parseDiagnosticsSpec l := by
    intro l
    induction l with
    | nil => intro acc; simp [parseDiagnosticsSpec]
    | cons d t ih =>
      intro acc
      rw [List.foldl_cons, parseDiagStep_append acc d, ih, List.append_assoc]
      congr 1
      obtain ⟨sev, msg, reg⟩ := d
      rcases reg with _ | ⟨sl, sc, el, ec⟩
      · simp [parseDiagStep, parseDiagnosticsSpec]
      · rcases sl with _ | sl <;> rcases sc with _ | sc <;>
          rcases el with _ | el <;> rcases ec with _ | ec <;>
          simp [parseDiagStep, parseDiagnosticsSpec]
  simpa using haux list []

/-- Claim C4, counterexample: when `allocateMessageBuffer` fails by
returning `0`, the `finally` guard `messagePtr !== null` still holds
(`0 !== null` in JavaScript), so `freeMessageBuffer` is invoked once for a
reserve that failed — the claim that a release is never invoked for a failed
reserve is false on this input. -/
theorem release_after_failed_reserve :
    (sendMessageToWasm ⟨true, true, false⟩
        ⟨0, 1, InvokeOutcome.returns 0, 10, ResponseBody.validJson ⟨none, none, none⟩,
          false, false⟩ ⟨"INIT", none, none, none, none⟩).result =
      .error .allocMessageFailed ∧
    (sendMessageToWasm ⟨true, true, false⟩
        ⟨0, 1, InvokeOutcome.returns 0, 10, ResponseBody.validJson ⟨none, none, none⟩,
          false, false⟩ ⟨"INIT", none, none, none, none⟩).calls.count
      WasmCall.freeMessageBuffer = 1 := by
  constructor
  · rfl
  · rfl

/-- Claim C4 as amended: on every exit path each release call is invoked
exactly as many times as its reserve was attempted — exactly once per
successful reserve, but also once when the reserve failed by returning zero
(the `!== null` guard does not exclude a `0` pointer); a release is never
invoked for a reserve that was not attempted at all. -/
theorem buffer_release_balanced (st : BridgeState) (b : ModuleBehavior)
    (m : WasmMessage) (hd : st.wasmIsDead = false) (hm : st.hasModule = true)
    (hmem : st.hasMemory = true) :
    (sendMessageToWasm st b m).calls.count WasmCall.freeMessageBuffer =
      (sendMessageToWasm st b m).calls.count WasmCall.allocateMessageBuffer ∧
    (sendMessageToWasm st b m).calls.count WasmCall.freeResponseBuffer =
      (sendMessageToWasm st b m).calls.count WasmCall.allocateResponseBuffer ∧
    (sendMessageToWasm st b m).calls.count WasmCall.allocateMessageBuffer = 1 ∧
    (sendMessageToWasm st b m).calls.count WasmCall.allocateResponseBuffer =
      (if b.allocMessageResult = 0 then 0 else 1) := by
  obtain ⟨bM, bMem, bD⟩ := st
  dsimp only at hd hm hmem
  subst hd
  subst hm
  subst hmem
  obtain ⟨am, ar, io, rl, rb, g, c⟩ := b
  dsimp only
  by_cases ham : am = 0
  · subst ham
    refine ⟨?_, ?_, ?_, ?_⟩ <;>
      simp [sendMessageToWasm, sendTryBlock, finallyCalls]
  · by_cases har : ar = 0
    · subst har
      refine ⟨?_, ?_, ?_, ?_⟩ <;>
        simp [sendMessageToWasm, sendTryBlock, finallyCalls, ham]
    · cases io with
      | trap =>
        cases g <;> cases c <;>
          refine ⟨?_, ?_, ?_, ?_⟩ <;>
          simp [sendMessageToWasm, sendTryBlock, finallyCalls, debugReadCalls,
            debugClearCalls, ham, har]
      | returns code =>
        by_cases hc : code = 0
        · subst hc
          by_cases hl : rl = 0 ∨ rl > responseBufferSize - 4
          · refine ⟨?_, ?_, ?_, ?_⟩ <;>
              simp [sendMessageToWasm, sendTryBlock, finallyCalls, ham, har, hl]
          · cases rb with
            | invalidJson =>
              refine ⟨?_, ?_, ?_, ?_⟩ <;>
                simp [sendMessageToWasm, sendTryBlock, finallyCalls, ham, har, hl]
            | validJson obj =>
              cases g <;> cases c <;>
                refine ⟨?_, ?_, ?_, ?_⟩ <;>
                simp [sendMessageToWasm, sendTryBlock, finallyCalls,
                  debugReadCalls, debugClearCalls, ham, har, hl]
        · refine ⟨?_, ?_, ?_, ?_⟩ <;>
            simp [sendMessageToWasm, sendTryBlock, finallyCalls, ham, har, hc]

theorem buffer_release_balanced_witness :
    (sendMessageToWasm ⟨true, true, false⟩
        ⟨3, 7, InvokeOutcome.returns 0, 10, ResponseBody.validJson ⟨none, none, none⟩,
          true, true⟩ ⟨"INIT", none, none, none, none⟩).calls.count
        WasmCall.freeMessageBuffer =
      (sendMessageToWasm ⟨true, true, false⟩
        ⟨3, 7, InvokeOutcome.returns 0, 10, ResponseBody.validJson ⟨none, none, none⟩,
          true, true⟩ ⟨"INIT", none, none, none, none⟩).calls.count
        WasmCall.allocateMessageBuffer :=
  (buffer_release_balanced ⟨true, true, false⟩
    ⟨3, 7, InvokeOutcome.returns 0, 10, ResponseBody.validJson ⟨none, none, none⟩,
      true, true⟩ ⟨"INIT", none, none, none, none⟩ rfl rfl rfl).1

/-- Claim C5, counterexample: a response whose bytes are valid JSON but carry
no `status` field is returned as a success — `JSON.parse(...) as WasmResponse`
performs no runtime check, so the call resolves with an object whose status
is absent instead of rejecting with a decode error. -/
theorem missing_status_not_rejected :
    (sendMessageToWasm ⟨true, true, false⟩
        ⟨1, 1, InvokeOutcome.returns 0, 10, ResponseBody.validJson ⟨none, none, none⟩,
          false, false⟩ ⟨"INIT", none, none, none, none⟩).result =
      .ok ⟨none, none, none⟩ := by
  rfl

/-- Claim C5 as amended: decoding rejects with `DecodeError` whenever the
bytes are not valid JSON, and with an invalid-length error whenever the
little-endian prefix `L` is zero or exceeds the response capacity minus the
4-byte prefix; but a missing `status` field is not detected — whatever object
the JSON parse produced is returned as a success unchanged. -/
theorem decode_validation (st : BridgeState) (b : ModuleBehavior)
    (m : WasmMessage) (hd : st.wasmIsDead = false) (hm : st.hasModule = true)
    (hmem : st.hasMemory = true) (ham : b.allocMessageResult ≠ 0)
    (har : b.allocResponseResult ≠ 0)
    (hio : b.invokeOutcome = InvokeOutcome.returns 0) :
    ((b.responseLen = 0 ∨ b.responseLen > responseBufferSize - 4) →
      (sendMessageToWasm st b m).result =
        .error (.invalidResponseLength b.responseLen)) ∧
    (¬(b.responseLen = 0 ∨ b.responseLen > responseBufferSize - 4) →
      (b.responseBody = ResponseBody.invalidJson →
        (sendMessageToWasm st b m).result = .error .decodeError) ∧
      (∀ obj, b.responseBody = ResponseBody.validJson obj →
        (sendMessageToWasm st b m).result = .ok obj)) := by
  obtain ⟨bM, bMem, bD⟩ := st
  dsimp only at hd hm hmem
  subst hd
  subst hm
  subst hmem
  obtain ⟨am, ar, io, rl, rb, g, c⟩ := b
  dsimp only at ham har hio ⊢
  subst hio
  refine ⟨?_, ?_⟩
  · intro hlen
    simp [sendMessageToWasm, sendTryBlock, ham, har, hlen]
  · intro hlen
    refine ⟨?_, ?_⟩
    · intro hbody
      subst hbody
      simp [sendMessageToWasm, sendTryBlock, ham, har, hlen]
    · intro obj hbody
      subst hbody
      simp [sendMessageToWasm, sendTryBlock, ham, har, hlen]

theorem decode_validation_witness :
    (sendMessageToWasm ⟨true, true, false⟩
        ⟨1, 1, InvokeOutcome.returns 0, 0, ResponseBody.validJson ⟨none, none, none⟩,
          false, false⟩ ⟨"INIT", none, none, none, none⟩).result =
      .error (.invalidResponseLength 0) :=
  (decode_validation ⟨true, true, false⟩
    ⟨1, 1, InvokeOutcome.returns 0, 0, ResponseBody.validJson ⟨none, none, none⟩,
      false, false⟩ ⟨"INIT", none, none, none, none⟩ rfl rfl rfl
    (by decide) (by decide) rfl).1 (Or.inl rfl)

/-- Claim C6: a non-success status code from `processMessage` (variant A) is
thrown as an invocation error carrying the enumerated reason from the
`errorMessages` table, and a null/zero pointer from `processAndRespond`
(variant B) is thrown as a null-response-pointer error; neither is ever
treated as a successful response. -/
theorem invocation_failures_rejected :
    (∀ (st : BridgeState) (b : ModuleBehavior) (m : WasmMessage) (code : Nat),
      st.wasmIsDead = false → st.hasModule = true → st.hasMemory = true →
      b.allocMessageResult ≠ 0 → b.allocResponseResult ≠ 0 →
      b.invokeOutcome = InvokeOutcome.returns code → code ≠ 0 →
      (sendMessageToWasm st b m).result =
        .error (.invocationError code (errorMessages.getD code "Unknown error"))) ∧
    (∀ (st : BridgeState) (b : ModuleBehaviorB)
      (parse : List Nat → ResponseBody) (m : WasmMessage),
      st.wasmIsDead = false → st.hasModule = true → st.hasMemory = true →
      b.allocMessageResult ≠ 0 → b.invokeOutcome = InvokeOutcomeB.returns 0 →
      (sendMessageToWasmB st b parse m).result = .error .nullResponsePointer) := by
  constructor
  · intro st b m code hd hm hmem ham har hio hc
    obtain ⟨bM, bMem, bD⟩ := st
    dsimp only at hd hm hmem
    subst hd
    subst hm
    subst hmem
    obtain ⟨am, ar, io, rl, rb, g, c⟩ := b
    dsimp only at ham har hio
    subst hio
    simp [sendMessageToWasm, sendTryBlock, ham, har, hc]
  · intro st b parse m hd hm hmem ham hio
    obtain ⟨bM, bMem, bD⟩ := st
    dsimp only at hd hm hmem
    subst hd
    subst hm
    subst hmem
    obtain ⟨am, io, mem, g, c⟩ := b
    dsimp only at ham hio
    subst hio
    simp [sendMessageToWasmB, sendTryBlockB, ham]

theorem invocation_failures_rejected_witness :
    (sendMessageToWasm ⟨true, true, false⟩
        ⟨1, 1, InvokeOutcome.returns 5, 10, ResponseBody.validJson ⟨none, none, none⟩,
          false, false⟩ ⟨"INIT", none, none, none, none⟩).result =
      .error (.invocationError 5 (errorMessages.getD 5 "Unknown error")) ∧
    (sendMessageToWasmB ⟨true, true, false⟩
        ⟨1, InvokeOutcomeB.returns 0, [], false, false⟩
        (fun _ => ResponseBody.invalidJson) ⟨"INIT", none, none, none, none⟩).result =
      .error .nullResponsePointer :=
  ⟨invocation_failures_rejected.1 ⟨true, true, false⟩
    ⟨1, 1, InvokeOutcome.returns 5, 10, ResponseBody.validJson ⟨none, none, none⟩,
      false, false⟩ ⟨"INIT", none, none, none, none⟩ 5 rfl rfl rfl
    (by decide) (by decide) rfl (by decide),
   invocation_failures_rejected.2 ⟨true, true, false⟩
    ⟨1, InvokeOutcomeB.returns 0, [], false, false⟩
    (fun _ => ResponseBody.invalidJson) ⟨"INIT", none, none, none, none⟩
    rfl rfl rfl (by decide) rfl⟩

theorem findZero_spec (m : List Nat) :
    ∀ (k e z : Nat), m.length - e = k → findZero m e = some z →
      e ≤ z ∧ m[z]? = some 0 ∧ ∀ j, e ≤ j → j < z → m[j]? ≠ some 0 := by
  intro k
  induction k using Nat.strong_induction_on with
  | _ k ih =>
    intro e z hk hf
    rw [findZero] at hf
    by_cases h : e < m.length
    · rw [dif_pos h] at hf
      by_cases h0 : m[e] = 0
      · rw [if_pos h0] at hf
        injection hf with hz
        subst hz
        refine ⟨le_refl e, by rw [List.getElem?_eq_getElem h, h0], ?_⟩
        intro j hj1 hj2
        omega
      · rw [if_neg h0] at hf
        subst hk
        obtain ⟨h1, h2, h3⟩ := ih (m.length - (e + 1)) (by omega) (e + 1) z rfl hf
        refine ⟨by omega, h2, ?_⟩
        intro j hj1 hj2
        rcases Nat.eq_or_lt_of_le hj1 with rfl | hlt
        · rw [List.getElem?_eq_getElem h]
          intro hc
          injection hc with hc0
          exact h0 hc0
        · exact h3 j hlt hj2
    · rw [dif_neg h] at hf
      exact absurd hf (by simp)

theorem findZero_none (m : List Nat) :
    ∀ (k e : Nat), m.length - e = k → findZero m e = none →
      ∀ j, e ≤ j → m[j]? ≠ some 0 := by
  intro k
  induction k using Nat.strong_induction_on with
  | _ k ih =>
    intro e hk hf j hj
    rw [findZero] at hf
    by_cases h : e < m.length
    · rw [dif_pos h] at hf
      by_cases h0 : m[e] = 0
      · rw [if_pos h0] at hf
        exact absurd hf (by simp)
      · rw [if_neg h0] at hf
        subst hk
        rcases Nat.eq_or_lt_of_le hj with rfl | hlt
        · rw [List.getElem?_eq_getElem h]
          intro hc
          injection hc with hc0
          exact h0 hc0
        · exact ih (m.length - (e + 1)) (by omega) (e + 1) rfl hf j hlt
    · rw [dif_neg h] at hf
      have hje : m.length ≤ j := by omega
      rw [List.getElem?_eq_none hje]
      simp

theorem scanTerminates_gives_zero (m : List Nat) (e : Nat)
    (h : ScanTerminates m e) : ∃ z, e ≤ z ∧ m[z]? = some 0 := by
  induction h with
  | stop e h0 => exact ⟨e, le_refl e, h0⟩
  | step e _hne _hrec ih =>
    obtain ⟨z, hz1, hz2⟩ := ih
    exact ⟨z, by omega, hz2⟩

theorem scanTerminates_of_zero (m : List Nat) :
    ∀ (d e z : Nat), z - e = d → e ≤ z → m[z]? = some 0 →
      ScanTerminates m e := by
  intro d
  induction d using Nat.strong_induction_on with
  | _ d ih =>
    intro e z hd hez h0
    by_cases he : m[e]? = some 0
    · exact .stop e he
    · have hez' : e < z := by
        rcases Nat.eq_or_lt_of_le hez with rfl | hlt
        · exact absurd h0 he
        · exact hlt
      exact .step e he (ih (z - (e + 1)) (by omega) (e + 1) z rfl (by omega) h0)

/-- Claim C10: `readNullTerminatedString` returns the empty string when the
pointer is zero or memory is unavailable; when some zero byte exists at or
after the pointer the scan loop terminates and the function returns exactly
the bytes from the pointer up to (excluding) the first zero byte; and when no
zero byte exists there the scan never terminates (reading past the end of a
`Uint8Array` yields `undefined`, which is `!== 0`). -/
theorem read_null_terminated_behaviour :
    (∀ ptr, readNullTerminatedString none ptr = some []) ∧
    (∀ m : List Nat, readNullTerminatedString (some m) 0 = some []) ∧
    (∀ (m : List Nat) (ptr : Nat), ptr ≠ 0 →
      (∃ z, ptr ≤ z ∧ m[z]? = some 0) →
      ScanTerminates m ptr ∧
      ∃ bytes, readNullTerminatedString (some m) ptr = some bytes ∧
        (∀ j, j < bytes.length → bytes[j]? = m[ptr + j]?) ∧
        0 ∉ bytes ∧ m[ptr + bytes.length]? = some 0) ∧
    (∀ (m : List Nat) (ptr : Nat), ptr ≠ 0 →
      (∀ z, ptr ≤ z → m[z]? ≠ some 0) →
      ¬ ScanTerminates m ptr ∧ readNullTerminatedString (some m) ptr = none) := by
  refine ⟨fun ptr => rfl, fun m => by simp [readNullTerminatedString], ?_, ?_⟩
  · intro m ptr hptr hz
    obtain ⟨z, hz1, hz2⟩ := hz
    refine ⟨scanTerminates_of_zero m (z - ptr) ptr z rfl hz1 hz2, ?_⟩
    rcases hfz : findZero m ptr with _ | z0
    · exact absurd hz2 (findZero_none m (m.length - ptr) ptr rfl hfz z hz1)
    · obtain ⟨hs1, hs2, hs3⟩ := findZero_spec m (m.length - ptr) ptr z0 rfl hfz
      have hz0lt : z0 < m.length := by
        by_contra hnot
        rw [List.getElem?_eq_none (by omega)] at hs2
        exact Option.noConfusion hs2
      refine ⟨(m.drop ptr).take (z0 - ptr), ?_, ?_, ?_, ?_⟩
      · simp [readNullTerminatedString, hptr, hfz]
      · intro j hj
        have hjlt : j < z0 - ptr := by
          simp [List.length_take, List.length_drop] at hj
          omega
        rw [List.getElem?_take, if_pos hjlt, List.getElem?_drop]
      · intro hmem
        obtain ⟨j, hj⟩ := List.mem_iff_getElem?.mp hmem
        have hjlen : j < ((m.drop ptr).take (z0 - ptr)).length := by
          by_contra hnot
          rw [List.getElem?_eq_none (by omega)] at hj
          exact Option.noConfusion hj
        have hjlt : j < z0 - ptr := by
          simp [List.length_take, List.length_drop] at hjlen
          omega
        rw [List.getElem?_take, if_pos hjlt, List.getElem?_drop] at hj
        exact hs3 (ptr + j) (by omega) (by omega) hj
      · have hlen : ((m.drop ptr).take (z0 - ptr)).length = z0 - ptr := by
          simp [List.length_take, List.length_drop]
          omega
        rw [hlen, show ptr + (z0 - ptr) = z0 by omega]
        exact hs2
  · intro m ptr hptr hno
    constructor
    · intro hsc
      obtain ⟨z, hz1, hz2⟩ := scanTerminates_gives_zero m ptr hsc
      exact hno z hz1 hz2
    · rcases hfz : findZero m ptr with _ | z0
      · simp [readNullTerminatedString, hptr, hfz]
      · obtain ⟨hs1, hs2, _⟩ := findZero_spec m (m.length - ptr) ptr z0 rfl hfz
        exact absurd hs2 (hno z0 hs1)

theorem read_null_terminated_witness :
    (ScanTerminates [7, 65, 66, 0] 1 ∧
      ∃ bytes, readNullTerminatedString (some [7, 65, 66, 0]) 1 = some bytes ∧
        (∀ j, j < bytes.length → bytes[j]? = [7, 65, 66, 0][1 + j]?) ∧
        0 ∉ bytes ∧ [7, 65, 66, 0][1 + bytes.length]? = some 0) ∧
    ¬ ScanTerminates [7, 65, 66] 1 :=
  ⟨read_null_terminated_behaviour.2.2.1 [7, 65, 66, 0] 1 (by decide)
      ⟨3, by decide, by decide⟩,
   (read_null_terminated_behaviour.2.2.2 [7, 65, 66] 1 (by decide)
      (by
        intro z hz hc
        have hlt : z < 3 := by
          by_contra hnot
          rw [List.getElem?_eq_none (by simp; omega)] at hc
          exact Option.noConfusion hc
        interval_cases z <;> simp_all)).1⟩
